import Mathlib

/-!
Verification of the scrapechecker change-detection and focused-reporting
engine against its natural-language specification.

The definitions below are a shallow embedding of the Python sources:

- change_finder.py: ChangeFinder.find_changes and helpers, over records
  modelled as ordered association lists of field/value pairs (Python dicts
  preserve insertion order; assignment replaces a value in place).
- contest/contest_formatter.py: ContestFormatter focused-rankings and
  focused-changes selection over typed contest items.
- formatter.py: the generic Formatter message composition used by the
  monitor, parametrised over the scraper-provided per-item formatter.
- site_monitor.py: the notification gate of SiteMonitor.monitor, the
  daily-status accounting and the persistence loader.

Python truthiness is modelled explicitly where the code relies on it
(an integer rank of 0 and a missing rank are both falsy; a boolean is an
instance of int).
-/

/-! ### Field values of scraped record dictionaries -/

inductive Val where
  | vstr (s : String)
  | vint (n : Int)
  | vbool (b : Bool)
  | vnone
  deriving DecidableEq, Repr

/-- Python equality between two field values, including the bool/int
coercion (True == 1 holds in Python). -/
def pyEq : Val → Val → Bool
  | .vstr a, .vstr b => a == b
  | .vint a, .vint b => a == b
  | .vbool a, .vbool b => a == b
  | .vint a, .vbool b => a == (if b then (1 : Int) else 0)
  | .vbool a, .vint b => (if a then (1 : Int) else 0) == b
  | .vnone, .vnone => true
  | _, _ => false

/-- Python str() rendering of a field value. -/
def pyStr : Val → String
  | .vstr s => s
  | .vint n => toString n
  | .vbool b => if b then "True" else "False"
  | .vnone => "None"

/-- A scraped record: a Python dict, an insertion-ordered list of
field/value pairs. -/
abbrev Item : Type := List (String × Val)

/-- First-match lookup of a field in a record (Python dict access; dict
keys are unique, so the first match is the only match). -/
def itemLookup (it : Item) (f : String) : Option Val :=
  match it with
  | [] => none
  | p :: rest => if p.1 = f then some p.2 else itemLookup rest f

/-! ### String helpers mirroring Python string operations -/

/-- True when the second list of characters begins with the first. -/
def chStarts : List Char → List Char → Bool
  | [], _ => true
  | _ :: _, [] => false
  | a :: as, b :: bs => a == b && chStarts as bs

/-- True when the character list p occurs contiguously inside l. -/
def chHasSub (p : List Char) : List Char → Bool
  | [] => p.isEmpty
  | c :: rest => chStarts p (c :: rest) || chHasSub p rest

/-- Python substring membership: pat in s. -/
def hasSub (s pat : String) : Bool :=
  chHasSub pat.data s.data

/-- Python str.lower, character by character (String.map does not reduce
in the kernel, so the character list is mapped directly). -/
def pyLower (s : String) : String :=
  ⟨s.data.map Char.toLower⟩

/-- Python str.rstrip restricted to ASCII whitespace, which is the only
trailing whitespace the formatter produces. -/
def pyRstrip (s : String) : String :=
  ⟨(s.data.reverse.dropWhile fun c =>
      c == ' ' || c == '\n' || c == '\t' || c == '\r').reverse⟩

/-- Python truthiness of an optional string: None and the empty string
are falsy. -/
def pyTruthyStr : Option String → Bool
  | none => false
  | some s => s != ""

/-! ### change_finder.py: ChangeFinder -/

/-- Fields ignored when detecting changes (ChangeFinder.ignored_fields). -/
def ignored_fields : List String := ["is_target"]

/-- A change in a single field of an item (types.FieldChange). -/
structure FieldChange where
  field_name : String
  old_value : String
  new_value : String
  deriving DecidableEq, Repr

/-- A change in an item between two snapshots (types.ItemChange); the
changes dict is insertion ordered by the old item field order. -/
structure ItemChange where
  old_item : Item
  new_item : Item
  changes : List FieldChange
  deriving DecidableEq, Repr

/-- ChangeFinder._get_item_changes: iterate the fields of the old item in
order; report a field when it also exists in the new item, the values
differ under Python equality, and the field is not ignored. -/
def get_item_changes (old_item new_item : Item) : List FieldChange :=
  old_item.filterMap fun p =>
    match itemLookup new_item p.1 with
    | some nv =>
        if ¬ (p.1 ∈ ignored_fields) ∧ pyEq p.2 nv = false then
          some ⟨p.1, pyStr p.2, pyStr nv⟩
        else none
    | none => none

/-- Python dict assignment d[k] = v on an insertion-ordered dict with
unique keys: replace in place when the key exists, else append. -/
def dictInsert : List (String × Item) → String → Item → List (String × Item)
  | [], k, v => [(k, v)]
  | p :: rest, k, v => if p.1 = k then (k, v) :: rest else p :: dictInsert rest k v

/-- Build the key-to-item dict comprehension of find_changes, processing
items left to right. -/
def buildDictAux (keyOf : Item → String) (d : List (String × Item)) :
    List Item → List (String × Item)
  | [] => d
  | it :: rest => buildDictAux keyOf (dictInsert d (keyOf it) it) rest

def buildDict (keyOf : Item → String) (items : List Item) : List (String × Item) :=
  buildDictAux keyOf [] items

/-- First-match lookup in a key-to-item dict. -/
def listLookup (d : List (String × Item)) (k : String) : Option Item :=
  match d with
  | [] => none
  | p :: rest => if p.1 = k then some p.2 else listLookup rest k

/-- ChangeFinder._find_changed_items: for every key of the current dict
that is also in the previous dict, compare the two records and keep the
pair when at least one non-ignored field differs. -/
def find_changed_items (cd pd : List (String × Item)) : List ItemChange :=
  cd.filterMap fun p =>
    match listLookup pd p.1 with
    | some prevIt =>
        let ch := get_item_changes prevIt p.2
        if ch = [] then none else some ⟨prevIt, p.2, ch⟩
    | none => none

/-- ChangeFinder.find_changes: build both dicts, then compute the new,
removed and changed lists. -/
def find_changes (keyOf : Item → String) (current_items previous_items : List Item) :
    List Item × List Item × List ItemChange :=
  let cd := buildDict keyOf current_items
  let pd := buildDict keyOf previous_items
  let new_items := (cd.filter fun p => (listLookup pd p.1).isNone).map (·.2)
  let removed_items := (pd.filter fun p => (listLookup cd p.1).isNone).map (·.2)
  (new_items, removed_items, find_changed_items cd pd)

/-! ### Specification-level descriptions of the diff (claim C3 wording) -/

/-- Keys of a list in first-occurrence order, duplicates dropped. -/
def dedupFirst : List String → List String
  | [] => []
  | k :: rest => k :: dedupFirst (rest.filter fun x => decide (x ≠ k))
termination_by l => l.length
decreasing_by
  simp only [List.length_cons]
  exact Nat.lt_succ_of_le (List.length_filter_le _ _)

/-- The last item of a list carrying a given key (last write wins). -/
def lastVal (keyOf : Item → String) (k : String) : List Item → Option Item
  | [] => none
  | it :: rest =>
      match lastVal keyOf k rest with
      | some v => some v
      | none => if keyOf it = k then some it else none

/-- True when some item of the list carries the key. -/
def keyMem (keyOf : Item → String) (items : List Item) (k : String) : Bool :=
  items.any fun it => keyOf it = k

/-- Claim wording: records whose key occurs in current but not previous,
in the iteration order of current, last write wins per key. -/
def spec_new (keyOf : Item → String) (cur prev : List Item) : List Item :=
  ((dedupFirst (cur.map keyOf)).filter fun k => !keyMem keyOf prev k).filterMap
    (lastVal keyOf · cur)

/-- Claim wording: records whose key occurs in previous but not current. -/
def spec_removed (keyOf : Item → String) (cur prev : List Item) : List Item :=
  ((dedupFirst (prev.map keyOf)).filter fun k => !keyMem keyOf cur k).filterMap
    (lastVal keyOf · prev)

/-- Claim wording: one ItemChange per key present on both sides whose
records differ in at least one non-ignored field present in the old
record; keys with zero differing fields produce nothing. -/
def spec_changed (keyOf : Item → String) (cur prev : List Item) : List ItemChange :=
  ((dedupFirst (cur.map keyOf)).filter fun k => keyMem keyOf prev k).filterMap fun k =>
    match lastVal keyOf k cur, lastVal keyOf k prev with
    | some a, some b =>
        let ch := get_item_changes b a
        if ch = [] then none else some ⟨b, a, ch⟩
    | _, _ => none

/-! ### contest/contest_formatter.py: ContestFormatter -/

/-- A contest participant (contest_types.ContestItem); only the fields the
focus selectors read are modelled. The rank is optional. -/
structure CItem where
  name : String
  rank : Option Int
  deriving DecidableEq, Repr

/-- An ItemChange between two contest items; the changes dict is modelled
by its field names paired with their field changes. -/
structure CChange where
  old_item : CItem
  new_item : CItem
  changes : List (String × FieldChange)
  deriving DecidableEq, Repr

/-- Python truthiness of an optional integer rank: None and 0 are falsy. -/
def truthyRank : Option Int → Bool
  | none => false
  | some r => r != 0

/-- The first item whose lowercased name contains the target substring,
together with its index (the find-the-target loop of
ContestFormatter._get_focused_rankings). -/
def find_target (tname : String) : List CItem → Option (Nat × CItem)
  | [] => none
  | it :: rest =>
      if hasSub (pyLower it.name) tname then some (0, it)
      else (find_target tname rest).map fun p => (p.1 + 1, p.2)

/-- Python list slicing items[a:b] with nonnegative bounds. -/
def pySlice (a b : Nat) (l : List α) : List α :=
  (l.take b).drop a

/-- The effective target rank of _get_focused_rankings: the Python
expression rank or (i + 1) falls back to the position when the rank is
absent or zero (both falsy). -/
def target_rank_of (i : Nat) (it : CItem) : Int :=
  match it.rank with
  | some r => if r = 0 then (i : Int) + 1 else r
  | none => (i : Int) + 1

/-- ContestFormatter._get_focused_rankings: adaptive focus strategy.
The branch test target_rank and target_rank <= 10 is a Python truthiness
test, reading target_rank twice like the source. -/
def get_focused_rankings (target : Option String) (items : List CItem)
    (max_items : Nat) : List CItem :=
  if ¬ pyTruthyStr target then items.take max_items
  else
    match find_target (pyLower (target.getD "")) items with
    | none => items.take max_items
    | some (i, it) =>
        if target_rank_of i it ≠ 0 ∧ target_rank_of i it ≤ 10 then
          items.take (min (i + 2) items.length)
        else
          (items.drop (i - min 2 i)).take (min 2 i + min 2 (items.length - i - 1) + 1)

/-- The rank of the first item of current whose lowercased name contains
the target substring; none when no item matches or the first matching
item has no rank (both leave target_current_rank as None in the code). -/
def target_rank_in (tname : String) : List CItem → Option Int
  | [] => none
  | it :: rest =>
      if hasSub (pyLower it.name) tname then it.rank
      else target_rank_in tname rest

/-- The competitor-threat condition of
ContestFormatter._get_focused_changes, with Python truthiness spelled
out: a rank of None or 0 is falsy. -/
def threat_cond (tr : Int) (c : CChange) : Bool :=
  let nr := c.new_item.rank
  let old_rank := c.old_item.rank
  let is_above_target := truthyRank nr && (tr != 0) && decide (nr.getD 0 < tr)
  let moved_above_target := old_rank.isNone ||
    (truthyRank old_rank && decide (tr ≤ old_rank.getD 0))
  let already_above_and_stronger := truthyRank old_rank &&
    decide (old_rank.getD 0 < tr) && c.changes.any fun q => q.1 == "votes"
  is_above_target && (moved_above_target || already_above_and_stronger)

/-- ContestFormatter._get_focused_changes: locate the target rank in the
current items, fall back to the unfiltered head when it stays None, else
the target change first (if any), then threatening competitors in input
order. -/
def get_focused_changes (target : Option String) (max_results : Nat)
    (changed_items : List CChange) (current_items : List CItem) : List CChange :=
  if ¬ pyTruthyStr target then changed_items.take max_results
  else
    match target_rank_in (pyLower (target.getD "")) current_items with
    | none => changed_items.take max_results
    | some tr =>
        (match changed_items.find?
            (fun c => hasSub (pyLower c.new_item.name) (pyLower (target.getD ""))) with
         | some c => [c]
         | none => []) ++
          changed_items.filter fun c =>
            !hasSub (pyLower c.new_item.name) (pyLower (target.getD "")) && threat_cond tr c

/-- The amended claim wording of the competitor-threat condition: the
new rank must be present, nonzero and better than the nonzero target
rank, and the competitor either had no old rank, or a nonzero old rank at
or worse than the target rank, or a nonzero old rank better than the
target rank together with a changed votes field. -/
def threat_amended (tr : Int) (c : CChange) : Bool :=
  match c.new_item.rank with
  | none => false
  | some nr =>
      if nr = 0 ∨ tr = 0 ∨ ¬ nr < tr then false
      else
        match c.old_item.rank with
        | none => true
        | some orr => (orr ≠ 0 ∧ tr ≤ orr) ∨
            (orr ≠ 0 ∧ orr < tr ∧ c.changes.any fun q => q.1 == "votes")

/-- The first item of the list matching the target name, per the claim
wording for locating the target in current_items. -/
def first_match (tname : String) (items : List CItem) : Option CItem :=
  items.find? fun it => hasSub (pyLower it.name) tname

/-! ### formatter.py: the generic Formatter used by SiteMonitor -/

/-- A changed-item tuple as the generic formatter unpacks it:
old item, new item, and a dict of field name to (old value, new value). -/
structure ChTuple where
  old_item : Item
  new_item : Item
  changes : List (String × String × String)
  deriving DecidableEq, Repr

/-- The name field of a record when present and a string. -/
def item_name (it : Item) : Option String :=
  match itemLookup it "name" with
  | some (.vstr s) => some s
  | _ => none

/-- The rank field of a record when present and an integer. -/
def item_rank (it : Item) : Option Int :=
  match itemLookup it "rank" with
  | some (.vint n) => some n
  | _ => none

/-- The generic formatter name test: the record has a name field whose
lowercased value contains the target substring. -/
def name_matches (tname : String) (it : Item) : Bool :=
  match item_name it with
  | some s => hasSub (pyLower s) tname
  | none => false

/-- Index of the first record matching the target name. -/
def find_target_idx (tname : String) : List Item → Option Nat
  | [] => none
  | it :: rest =>
      if name_matches tname it then some 0
      else (find_target_idx tname rest).map (· + 1)

/-- Formatter._get_focused_rankings: symmetric window of two records
around the target, widened above then below while room remains under
max_items. -/
def generic_focused_rankings (target : Option String) (items : List Item)
    (max_items : Nat) : List Item :=
  if ¬ pyTruthyStr target then items.take max_items
  else
    let tname := pyLower (target.getD "")
    match find_target_idx tname items with
    | none => items.take max_items
    | some i =>
        let items_above := min 2 i
        let items_below := min 2 (items.length - i - 1)
        let total_context := items_above + 1 + items_below
        let extra_above :=
          if total_context < max_items then
            min (max_items - total_context) (i - items_above)
          else 0
        let items_above2 := items_above + extra_above
        let total_context2 := total_context + extra_above
        let extra_below :=
          if total_context2 < max_items then
            min (max_items - total_context2) (items.length - i - 1 - items_below)
          else 0
        let items_below2 := items_below + extra_below
        (items.drop (i - items_above2)).take (items_above2 + items_below2 + 1)

/-- The competitor condition of Formatter._get_focused_changes, with
Python truthiness spelled out. -/
def generic_threat (target_new_rank : Option Int) (c : ChTuple) : Bool :=
  let old_rank := item_rank c.old_item
  let new_rank := item_rank c.new_item
  truthyRank new_rank && truthyRank target_new_rank &&
    decide (new_rank.getD 0 ≤ target_new_rank.getD 0) &&
    (old_rank.isNone ||
      (truthyRank old_rank && decide (target_new_rank.getD 0 < old_rank.getD 0)))

/-- Formatter._get_focused_changes: the target tuple first when found;
when the target old rank is None the list stops there (possibly holding
just the target); otherwise competitors now at or above the target. -/
def generic_focused_changes (target : Option String) (max_results : Nat)
    (changed_items : List ChTuple) : List ChTuple :=
  if ¬ pyTruthyStr target then changed_items.take max_results
  else
    let tname := pyLower (target.getD "")
    match changed_items.find? (fun c => name_matches tname c.new_item) with
    | none => []
    | some c0 =>
        match item_rank c0.old_item with
        | none => [c0]
        | some _ =>
            let tnr := item_rank c0.new_item
            c0 :: changed_items.filter fun c =>
              !name_matches tname c.new_item && generic_threat tnr c

/-- One bullet line per shown item. -/
def bullets (fmt : Item → String) (items : List Item) : String :=
  String.join (items.map fun it => "• " ++ fmt it ++ "\n")

/-- Formatter._format_new_items. -/
def format_new_items (fmt : Item → String) (max_results : Nat)
    (new_items : List Item) : String :=
  let count := new_items.length
  let shown := new_items.take max_results
  let header := "<b>🆕 " ++ toString count ++ " New Item" ++
    (if count ≠ 1 then "s" else "") ++ ":</b>\n"
  let tail :=
    if max_results < count then
      "... and " ++ toString (count - max_results) ++ " more\n"
    else ""
  pyRstrip (header ++ bullets fmt shown ++ tail)

/-- Formatter._format_removed_items. -/
def format_removed_items (fmt : Item → String) (max_results : Nat)
    (removed_items : List Item) : String :=
  let count := removed_items.length
  let shown := removed_items.take max_results
  let header := "<b>❌ " ++ toString count ++ " Removed Item" ++
    (if count ≠ 1 then "s" else "") ++ ":</b>\n"
  let tail :=
    if max_results < count then
      "... and " ++ toString (count - max_results) ++ " more\n"
    else ""
  pyRstrip (header ++ bullets fmt shown ++ tail)

/-- Formatter._format_changed_items: focus filter when a target is set,
else the unfiltered head; the empty string when nothing remains. -/
def format_changed_items (fmt : Item → String) (target : Option String)
    (max_results : Nat) (changed_items : List ChTuple) : String :=
  let shown :=
    if pyTruthyStr target then generic_focused_changes target max_results changed_items
    else changed_items.take max_results
  if shown.isEmpty then ""
  else
    let header := "<b>🔄 " ++ toString shown.length ++ " Key Change" ++
      (if shown.length ≠ 1 then "s" else "") ++ ":</b>\n"
    let body := String.join (shown.map fun c =>
      "• " ++ fmt c.new_item ++ "\n" ++
      String.join (c.changes.map fun q =>
        "    └ <b>" ++ q.1 ++ ":</b> " ++ q.2.1 ++ " → " ++ q.2.2 ++ "\n"))
    pyRstrip (header ++ body)

/-- Formatter._format_current_rankings: the focused view (max_items 5)
when a target is set, else the unfiltered head with a more-suffix. -/
def format_current_rankings (fmt : Item → String) (target : Option String)
    (max_results : Nat) (current_items : List Item) : String :=
  let count := current_items.length
  if pyTruthyStr target then
    let shown := generic_focused_rankings target current_items 5
    let header :=
      if shown.length < count then
        "<b>📊 Current Rankings (showing " ++ toString shown.length ++ " of " ++
          toString count ++ "):</b>\n"
      else "<b>📊 Current Rankings (" ++ toString count ++ "):</b>\n"
    pyRstrip (header ++ bullets fmt shown)
  else
    let shown := current_items.take max_results
    let header := "<b>📊 Current Rankings (" ++ toString count ++ "):</b>\n"
    let tail :=
      if shown.length < count then
        "... and " ++ toString (count - shown.length) ++ " more\n"
      else ""
    pyRstrip (header ++ bullets fmt shown ++ tail)

/-- Formatter.format_changes_message: compose the nonempty-input blocks
(the changed block is appended even when it renders empty), add the
current-rankings block when current items exist and something changed,
and join with blank lines; the sentinel string when no block was added. -/
def format_changes_message (fmt : Item → String) (target : Option String)
    (max_results : Nat) (new_items removed_items : List Item)
    (changed_items : List ChTuple) (current_items : List Item) : String :=
  let parts : List String :=
    (if new_items.isEmpty then [] else [format_new_items fmt max_results new_items]) ++
    (if removed_items.isEmpty then [] else [format_removed_items fmt max_results removed_items]) ++
    (if changed_items.isEmpty then []
     else [format_changed_items fmt target max_results changed_items]) ++
    (if ¬ current_items.isEmpty ∧
        (¬ new_items.isEmpty ∨ ¬ removed_items.isEmpty ∨ ¬ changed_items.isEmpty) then
       [format_current_rankings fmt target max_results current_items]
     else [])
  if parts.isEmpty then "No changes detected." else String.intercalate "\n\n" parts

/-! ### site_monitor.py: the notification gate of SiteMonitor.monitor -/

/-- SiteMonitor.monitor sends a change alert only when some change list is
nonempty, the formatted message is nonempty, and the message contains the
substring Key Change. -/
def monitor_sends (fmt : Item → String) (target : Option String)
    (max_results : Nat) (new_items removed_items : List Item)
    (changed_items : List ChTuple) (current_items : List Item) : Bool :=
  if !new_items.isEmpty || !removed_items.isEmpty || !changed_items.isEmpty then
    format_changes_message fmt target max_results new_items removed_items
        changed_items current_items != "" &&
      hasSub (format_changes_message fmt target max_results new_items
        removed_items changed_items current_items) "Key Change"
  else false

/-! ### site_monitor.py: daily status and persistence -/

/-- A JSON value as json.load produces it; numbers that are not integers
carry no payload because the code never reads one. -/
inductive JVal where
  | jnull
  | jbool (b : Bool)
  | jint (n : Int)
  | jfloat
  | jstr (s : String)
  | jarr (elems : List JVal)
  | jobj (fields : List (String × JVal))

/-- Lookup in a parsed JSON object; json.load keeps the last duplicate
key, so the lookup folds left taking the latest match. -/
def objLookup (m : List (String × JVal)) (k : String) : Option JVal :=
  m.foldl (fun acc p => if p.1 = k then some p.2 else acc) none

/-- The daily status file content: an optional last-sent date (days as a
number) and the changes counter as an arbitrary JSON value. -/
structure StatusData where
  last_sent : Option Nat
  changes : Option JVal

/-- The default status data used when the status file is missing. -/
def defaultStatus : StatusData := ⟨none, some (.jint 0)⟩

/-- The parsed status file, with the missing-file default. -/
def statusOf (file : Option StatusData) : StatusData :=
  file.getD defaultStatus

/-- SiteMonitor.send_daily_status as a state transition: send when no
last-sent date is stored or it is strictly before today (wall-clock date
comparison); on send, store today and reset the counter to zero. -/
def send_daily_status (file : Option StatusData) (today : Nat) : Bool × StatusData :=
  let st := statusOf file
  match st.last_sent with
  | none => (true, ⟨some today, some (.jint 0)⟩)
  | some d => if d < today then (true, ⟨some today, some (.jint 0)⟩) else (false, st)

/-- Python isinstance(x, int) over a JSON value: booleans are instances
of int. -/
def isPyInt : JVal → Bool
  | .jint _ => true
  | .jbool _ => true
  | _ => false

/-- Python int(x) for the values isPyInt accepts. -/
def pyIntOf : JVal → Int
  | .jint n => n
  | .jbool b => if b then 1 else 0
  | _ => 0

/-- SiteMonitor.update_daily_status: substitute 0 when the changes value
is missing or not an int instance, then add the total change count. -/
def update_daily_status (file : Option StatusData) (new_count removed_count
    changed_count : Nat) : StatusData :=
  let st := statusOf file
  let sanitized : Int :=
    match st.changes with
    | some v => if isPyInt v then pyIntOf v else 0
    | none => 0
  let total : Int := (new_count : Int) + removed_count + changed_count
  ⟨st.last_sent, some (.jint (sanitized + total))⟩

/-- The state of the monitoring data file on disk. -/
inductive DataFile where
  | missing
  | malformed
  | jsonData (v : JVal)

/-- SiteMonitor.load_previous_data: a legacy plain array is returned as
is, the new dict format yields its current entry, and a missing file,
malformed JSON, a dict without current, or any other JSON shape yield an
empty list. -/
def load_previous_data : DataFile → JVal
  | .missing => .jarr []
  | .malformed => .jarr []
  | .jsonData v =>
      match v with
      | .jarr l => .jarr l
      | .jobj m =>
          match objLookup m "current" with
          | some c => c
          | none => .jarr []
      | _ => .jarr []

/-! ### Concrete data used to instantiate the theorems -/

/-- A name-based item key, as the site scrapers derive keys from the
identity field. -/
def nameKey (it : Item) : String :=
  match item_name it with
  | some s => s
  | none => ""

/-- A simple per-item formatter standing in for the scraper formatter. -/
def exFmt (it : Item) : String :=
  match item_name it with
  | some s => s
  | none => "?"

def exA : Item := [("name", .vstr "a")]

def exB : Item := [("name", .vstr "b")]

def exC : Item := [("name", .vstr "c")]

/-- Eleven contest items: ten non-matching names ahead of a target named
t sitting at index 10 with a stored rank of zero. -/
def c1_items : List CItem :=
  [⟨"a0", none⟩, ⟨"a1", none⟩, ⟨"a2", none⟩, ⟨"a3", none⟩, ⟨"a4", none⟩,
   ⟨"a5", none⟩, ⟨"a6", none⟩, ⟨"a7", none⟩, ⟨"a8", none⟩, ⟨"a9", none⟩,
   ⟨"t", some 0⟩]

/-! ## Helper lemmas -/

theorem pyEq_refl (v : Val) : pyEq v v = true := by
  cases v <;> simp [pyEq]

theorem itemLookup_eq_none_iff (it : Item) (f : String) :
    itemLookup it f = none ↔ ∀ p ∈ it, p.1 ≠ f := by
  induction it with
  | nil => simp [itemLookup]
  | cons p rest ih =>
      by_cases h : p.1 = f <;> simp [itemLookup, h, ih]

theorem mem_of_get_item_changes {old_it new_it : Item} {fc : FieldChange}
    (h : fc ∈ get_item_changes old_it new_it) : ∃ p ∈ old_it, p.1 = fc.field_name := by
  rw [get_item_changes, List.mem_filterMap] at h
  obtain ⟨p, hp, heq⟩ := h
  refine ⟨p, hp, ?_⟩
  split at heq
  · split at heq
    · cases heq
      rfl
    · simp at heq
  · simp at heq

theorem find_changed_items_inv {cd pd : List (String × Item)} {ic : ItemChange}
    (h : ic ∈ find_changed_items cd pd) :
    ∃ p ∈ cd, listLookup pd p.1 = some ic.old_item ∧ ic.new_item = p.2 ∧
      ic.changes = get_item_changes ic.old_item p.2 ∧ ic.changes ≠ [] := by
  simp only [find_changed_items, List.mem_filterMap] at h
  obtain ⟨p, hp, heq⟩ := h
  split at heq
  next prevIt hl =>
    split at heq
    · simp at heq
    next hc =>
      cases heq
      exact ⟨p, hp, hl, rfl, rfl, hc⟩
  next => simp at heq

/-! ## Claim C4 -/

/-- Claim C4: the field comparison is asymmetric. A field absent from the
old record never yields a FieldChange, both at the level of
get_item_changes and for every ItemChange produced by find_changes. -/
theorem c4_asymmetric_fields :
    (∀ old_it new_it f, itemLookup old_it f = none →
      ∀ fc ∈ get_item_changes old_it new_it, fc.field_name ≠ f) ∧
    (∀ keyOf cur prev, ∀ ic ∈ (find_changes keyOf cur prev).2.2,
      ∀ fc ∈ ic.changes, itemLookup ic.old_item fc.field_name ≠ none) := by
  constructor
  · intro old_it new_it f hf fc hfc heq
    obtain ⟨p, hp, hpf⟩ := mem_of_get_item_changes hfc
    exact ((itemLookup_eq_none_iff old_it f).mp hf p hp) (heq ▸ hpf)
  · intro keyOf cur prev ic hic fc hfc hnone
    obtain ⟨p, _, _, hnew, hch, _⟩ := find_changed_items_inv hic
    rw [hch, ← hnew] at hfc
    obtain ⟨q, hq, hqf⟩ := mem_of_get_item_changes hfc
    exact ((itemLookup_eq_none_iff _ _).mp hnone q hq) hqf

/-- Witness for C4 at a concrete input: the new record gains the field b,
and the produced field change (for the differing field a) is not about b. -/
theorem c4_asymmetric_fields_witness :
    FieldChange.field_name ⟨"a", "1", "2"⟩ ≠ "b" :=
  c4_asymmetric_fields.1 [("a", .vint 1)] [("a", .vint 2), ("b", .vint 3)] "b"
    rfl ⟨"a", "1", "2"⟩ (by decide)

/-! ## Dict lemmas for the change finder -/

theorem map_fst_dictInsert (d : List (String × Item)) (k : String) (v : Item) :
    (dictInsert d k v).map Prod.fst =
      if k ∈ d.map Prod.fst then d.map Prod.fst else d.map Prod.fst ++ [k] := by
  induction d with
  | nil => simp [dictInsert]
  | cons p rest ih =>
      by_cases h : p.1 = k
      · simp [dictInsert, h]
      · have h' : ¬ k = p.1 := fun he => h he.symm
        simp only [dictInsert, if_neg h, List.map_cons, ih, List.mem_cons, h',
          false_or]
        by_cases hm : k ∈ rest.map Prod.fst <;> simp [hm]

theorem mem_dictInsert {d : List (String × Item)} {k : String} {v : Item}
    {q : String × Item} (h : q ∈ dictInsert d k v) : q = (k, v) ∨ q ∈ d := by
  induction d with
  | nil =>
      simp only [dictInsert, List.mem_singleton] at h
      exact Or.inl h
  | cons p rest ih =>
      by_cases hp : p.1 = k
      · rw [dictInsert, if_pos hp] at h
        rcases List.mem_cons.mp h with h | h
        · exact Or.inl h
        · exact Or.inr (List.mem_cons_of_mem _ h)
      · rw [dictInsert, if_neg hp] at h
        rcases List.mem_cons.mp h with h | h
        · exact Or.inr (h ▸ List.mem_cons_self _ _)
        · rcases ih h with h | h
          · exact Or.inl h
          · exact Or.inr (List.mem_cons_of_mem _ h)

theorem keyOf_buildDictAux (keyOf : Item → String) (items : List Item) :
    ∀ d, (∀ q ∈ d, keyOf q.2 = q.1) → ∀ p ∈ buildDictAux keyOf d items, keyOf p.2 = p.1 := by
  induction items with
  | nil => exact fun d hd p hp => hd p hp
  | cons it rest ih =>
      intro d hd p hp
      refine ih _ ?_ p hp
      intro q hq
      rcases mem_dictInsert hq with h | h
      · rw [h]
      · exact hd q h

theorem keyOf_buildDict (keyOf : Item → String) (items : List Item) :
    ∀ p ∈ buildDict keyOf items, keyOf p.2 = p.1 :=
  keyOf_buildDictAux keyOf items [] (by simp)

theorem nodup_fst_dictInsert {d : List (String × Item)} (k : String) (v : Item)
    (h : (d.map Prod.fst).Nodup) : ((dictInsert d k v).map Prod.fst).Nodup := by
  rw [map_fst_dictInsert]
  split
  · exact h
  · next hk => simp [List.nodup_append, h, hk]

theorem nodup_fst_buildDictAux (keyOf : Item → String) (items : List Item) :
    ∀ d, (d.map Prod.fst).Nodup → ((buildDictAux keyOf d items).map Prod.fst).Nodup := by
  induction items with
  | nil => exact fun _ h => h
  | cons it rest ih => exact fun d h => ih _ (nodup_fst_dictInsert _ _ h)

theorem nodup_fst_buildDict (keyOf : Item → String) (items : List Item) :
    ((buildDict keyOf items).map Prod.fst).Nodup :=
  nodup_fst_buildDictAux keyOf items [] (by simp)

theorem listLookup_of_mem {d : List (String × Item)} (hnd : (d.map Prod.fst).Nodup)
    {p : String × Item} (hp : p ∈ d) : listLookup d p.1 = some p.2 := by
  induction d with
  | nil => simp at hp
  | cons q rest ih =>
      rw [List.map_cons, List.nodup_cons] at hnd
      rcases List.mem_cons.mp hp with h | h
      · rw [h]
        simp [listLookup]
      · have hq : q.1 ≠ p.1 := by
          intro he
          exact hnd.1 (he ▸ List.mem_map_of_mem Prod.fst h)
        rw [listLookup, if_neg hq]
        exact ih hnd.2 h

theorem listLookup_dictInsert (d : List (String × Item)) (k k' : String) (v : Item) :
    listLookup (dictInsert d k v) k' = if k = k' then some v else listLookup d k' := by
  induction d with
  | nil => simp [dictInsert, listLookup]
  | cons p rest ih =>
      by_cases h : p.1 = k
      · subst h
        rw [dictInsert, if_pos rfl]
        by_cases h' : p.1 = k' <;> simp [listLookup, h']
      · rw [dictInsert, if_neg h]
        by_cases h1 : p.1 = k'
        · have h2 : k ≠ k' := fun he => h (h1.trans he.symm)
          simp [listLookup, h1, h2]
        · simp [listLookup, h1, ih]

theorem listLookup_buildDictAux (keyOf : Item → String) (k : String) (items : List Item) :
    ∀ d, listLookup (buildDictAux keyOf d items) k =
      match lastVal keyOf k items with
      | some v => some v
      | none => listLookup d k := by
  induction items with
  | nil => intro d; rfl
  | cons it rest ih =>
      intro d
      rw [buildDictAux, ih]
      cases hlv : lastVal keyOf k rest with
      | some v => simp [lastVal, hlv]
      | none =>
          rw [listLookup_dictInsert]
          simp only [lastVal, hlv]
          by_cases h : keyOf it = k <;> simp [h]

theorem listLookup_buildDict (keyOf : Item → String) (items : List Item) (k : String) :
    listLookup (buildDict keyOf items) k = lastVal keyOf k items := by
  rw [buildDict, listLookup_buildDictAux]
  cases hlv : lastVal keyOf k items <;> simp [listLookup]

theorem lastVal_isSome_eq_keyMem (keyOf : Item → String) (k : String) (items : List Item) :
    (lastVal keyOf k items).isSome = keyMem keyOf items k := by
  induction items with
  | nil => rfl
  | cons it rest ih =>
      simp only [lastVal, keyMem, List.any_cons]
      cases hlv : lastVal keyOf k rest with
      | some v =>
          have h2 : keyMem keyOf rest k = true := by rw [← ih, hlv]; rfl
          rw [keyMem] at h2
          simp [h2]
      | none =>
          have h2 : keyMem keyOf rest k = false := by rw [← ih, hlv]; rfl
          rw [keyMem] at h2
          by_cases h : keyOf it = k <;> simp [h, h2]

/-! ## Claim C6 -/

/-- Claim C6: two records under the same key that agree on every
non-ignored field of the old record produce no field changes, and
find_changes emits no ItemChange carrying that key. -/
theorem c6_ignored_field_invariant :
    ∀ (keyOf : Item → String) (cur prev : List Item) (k : String) (a b : Item),
      listLookup (buildDict keyOf cur) k = some a →
      listLookup (buildDict keyOf prev) k = some b →
      (∀ p ∈ b, p.1 ∉ ignored_fields → itemLookup a p.1 = some p.2) →
      get_item_changes b a = [] ∧
      ∀ ic ∈ (find_changes keyOf cur prev).2.2, keyOf ic.new_item ≠ k := by
  intro keyOf cur prev k a b ha hb hagree
  have hch : get_item_changes b a = [] := by
    rw [get_item_changes, List.filterMap_eq_nil_iff]
    intro p hp
    by_cases hig : p.1 ∈ ignored_fields
    · cases hl : itemLookup a p.1 <;> simp [hl, hig]
    · rw [hagree p hp hig]
      simp [pyEq_refl, hig]
  refine ⟨hch, ?_⟩
  intro ic hic heq
  have hic' : ic ∈ find_changed_items (buildDict keyOf cur) (buildDict keyOf prev) := hic
  obtain ⟨p, hp, hlpd, hnew, hchs, hne⟩ := find_changed_items_inv hic'
  have hks : keyOf p.2 = p.1 := keyOf_buildDict keyOf cur p hp
  have hp1 : p.1 = k := by rw [← hks, ← hnew, heq]
  have hlcd : listLookup (buildDict keyOf cur) p.1 = some p.2 :=
    listLookup_of_mem (nodup_fst_buildDict keyOf cur) hp
  rw [hp1, ha] at hlcd
  rw [hp1, hb] at hlpd
  cases hlcd
  cases hlpd
  exact hne (hchs.trans hch)

/-- Witness for C6: flipping only the ignored is-target marker between
two otherwise-identical records yields no field changes. -/
theorem c6_ignored_field_invariant_witness :
    get_item_changes [("name", .vstr "x"), ("is_target", .vbool false)]
      [("name", .vstr "x"), ("is_target", .vbool true)] = [] :=
  (c6_ignored_field_invariant nameKey
    [[("name", .vstr "x"), ("is_target", .vbool true)]]
    [[("name", .vstr "x"), ("is_target", .vbool false)]] "x"
    [("name", .vstr "x"), ("is_target", .vbool true)]
    [("name", .vstr "x"), ("is_target", .vbool false)]
    (by decide) (by decide) (by decide)).1

/-! ## Claim C7 -/

/-- Claim C7: the daily status sends exactly when the stored date is
absent or strictly before today, writes back today with a zeroed counter
on send, sends at most once per date and again on the next date, while
update_daily_status adds the cycle change count to an integer counter. -/
theorem c7_daily_status :
    (∀ file today, (send_daily_status file today).1 = true ↔
        ((statusOf file).last_sent = none ∨
          ∃ d, (statusOf file).last_sent = some d ∧ d < today)) ∧
    (∀ file today, (send_daily_status file today).1 = true →
        (send_daily_status file today).2 = ⟨some today, some (.jint 0)⟩) ∧
    (∀ file today,
        (send_daily_status (some (send_daily_status file today).2) today).1 = false) ∧
    (∀ file today, (∀ d, (statusOf file).last_sent = some d → d ≤ today) →
        (send_daily_status (some (send_daily_status file today).2) (today + 1)).1 = true) ∧
    (∀ file n r c k, (statusOf file).changes = some (.jint k) →
        (update_daily_status file n r c).changes = some (.jint (k + (n + r + c)))) := by
  refine ⟨?_, ?_, ?_, ?_, ?_⟩
  · intro file today
    cases h : (statusOf file).last_sent with
    | none => simp [send_daily_status, h]
    | some d => by_cases hd : d < today <;> simp [send_daily_status, h, hd]
  · intro file today hs
    cases h : (statusOf file).last_sent with
    | none => simp [send_daily_status, h]
    | some d =>
        by_cases hd : d < today
        · simp [send_daily_status, h, hd]
        · simp [send_daily_status, h, hd] at hs
  · intro file today
    cases h : (statusOf file).last_sent with
    | none =>
        have e : (send_daily_status file today).2 = ⟨some today, some (.jint 0)⟩ := by
          simp [send_daily_status, h]
        rw [e]
        simp [send_daily_status, statusOf]
    | some d =>
        by_cases hd : d < today
        · have e : (send_daily_status file today).2 = ⟨some today, some (.jint 0)⟩ := by
            simp [send_daily_status, h, hd]
          rw [e]
          simp [send_daily_status, statusOf]
        · have e : (send_daily_status file today).2 = statusOf file := by
            simp [send_daily_status, h, hd]
          rw [e]
          simp only [send_daily_status, statusOf, Option.getD_some]
          simp only [statusOf] at h
          simp [h, hd]
  · intro file today hle
    cases h : (statusOf file).last_sent with
    | none =>
        have e : (send_daily_status file today).2 = ⟨some today, some (.jint 0)⟩ := by
          simp [send_daily_status, h]
        rw [e]
        simp [send_daily_status, statusOf]
    | some d =>
        have hd2 : d ≤ today := hle d h
        by_cases hd : d < today
        · have e : (send_daily_status file today).2 = ⟨some today, some (.jint 0)⟩ := by
            simp [send_daily_status, h, hd]
          rw [e]
          simp [send_daily_status, statusOf]
        · have e : (send_daily_status file today).2 = statusOf file := by
            simp [send_daily_status, h, hd]
          rw [e]
          simp only [send_daily_status, statusOf, Option.getD_some]
          simp only [statusOf] at h
          simp only [h]
          rw [if_pos (show d < today + 1 by omega)]
  · intro file n r c k h
    simp [update_daily_status, h, isPyInt, pyIntOf]

/-- Witness for C7: with no status file, a run on day 3 writes day 3 and
a zero counter, the next run on day 4 sends, and an update with one new,
two removed and three changed items writes a counter of six. -/
theorem c7_daily_status_witness :
    (send_daily_status none 3).2 = ⟨some 3, some (.jint 0)⟩ ∧
    (send_daily_status (some (send_daily_status none 3).2) 4).1 = true ∧
    (update_daily_status none 1 2 3).changes = some (.jint (0 + (1 + 2 + 3))) :=
  ⟨c7_daily_status.2.1 none 3 rfl,
   c7_daily_status.2.2.2.1 none 3 (fun _ h => Option.noConfusion h),
   c7_daily_status.2.2.2.2 none 1 2 3 0 rfl⟩

/-! ## Claim C8 -/

/-- Claim C8: load_previous_data returns the current entry for the dict
format, the array itself for the legacy format, and an empty list for a
missing file, malformed JSON, or a dict without a current key. -/
theorem c8_load_previous_data :
    (∀ l, load_previous_data (.jsonData (.jarr l)) = .jarr l) ∧
    (∀ m c, objLookup m "current" = some c →
        load_previous_data (.jsonData (.jobj m)) = c) ∧
    load_previous_data .missing = .jarr [] ∧
    load_previous_data .malformed = .jarr [] ∧
    (∀ m, objLookup m "current" = none →
        load_previous_data (.jsonData (.jobj m)) = .jarr []) := by
  refine ⟨fun l => rfl, fun m c h => ?_, rfl, rfl, fun m h => ?_⟩
  · simp [load_previous_data, h]
  · simp [load_previous_data, h]

/-- Witness for C8 at a concrete state file holding the dict format. -/
theorem c8_load_previous_data_witness :
    load_previous_data (.jsonData (.jobj [("current", .jarr [.jnull])])) =
      .jarr [.jnull] :=
  c8_load_previous_data.2.1 _ _ rfl

/-! ## Claim C10 -/

/-- Counterexample to C10 as stated: a JSON boolean stored in the changes
field is an int instance in Python, so the code adds to 1 rather than
substituting 0; with one new item the written counter is 2, not 1. -/
theorem c10_counterexample :
    (update_daily_status (some ⟨none, some (.jbool true)⟩) 1 0 0).changes =
      some (.jint 2) ∧ (2 : Int) ≠ 0 + (1 + 0 + 0) := by
  exact ⟨rfl, by decide⟩

/-- Claim C10 amended: the counter is sanitized to 0 when missing or not
an int instance, where booleans count as the integers 0 and 1, and the
written counter is that value plus the cycle change count; the stored
last-sent date is untouched. -/
theorem c10_update_status_amended :
    ∀ file n r c,
      (update_daily_status file n r c).changes =
        some (.jint ((match (statusOf file).changes with
          | some (JVal.jint k) => k
          | some (JVal.jbool b) => if b then (1 : Int) else 0
          | _ => (0 : Int)) + (n + r + c))) ∧
      (update_daily_status file n r c).last_sent = (statusOf file).last_sent := by
  intro file n r c
  refine ⟨?_, rfl⟩
  cases h : (statusOf file).changes with
  | none => simp [update_daily_status, h]
  | some v => cases v <;> simp [update_daily_status, h, isPyInt, pyIntOf]

/-! ## Lemmas on the contest focus selectors -/

theorem find_target_get {tname : String} : ∀ {items : List CItem} {i : Nat} {it : CItem},
    find_target tname items = some (i, it) → items[i]? = some it := by
  intro items
  induction items with
  | nil => intro i it h; simp [find_target] at h
  | cons hd rest ih =>
      intro i it h
      rw [find_target] at h
      split at h
      · cases h
        simp
      · obtain ⟨p, hp, heq⟩ := Option.map_eq_some'.mp h
        cases heq
        simp only [List.getElem?_cons_succ]
        exact ih hp

theorem take_min_eq_pySlice (items : List CItem) (i : Nat) :
    items.take (min (i + 2) items.length) = pySlice 0 (i + 2) items := by
  rw [pySlice, List.drop_zero, List.take_eq_take]
  omega

theorem window_eq_pySlice (items : List CItem) (i : Nat) (h : i < items.length) :
    (items.drop (i - min 2 i)).take (min 2 i + min 2 (items.length - i - 1) + 1) =
      pySlice (i - 2) (i + 3) items := by
  rw [pySlice, List.drop_take]
  have h2 : i - min 2 i = i - 2 := by omega
  rw [h2, List.take_eq_take, List.length_drop]
  omega

theorem get_focused_rankings_length (target : Option String) (items : List CItem)
    (max_items : Nat) :
    (get_focused_rankings target items max_items).length ≤ items.length := by
  rw [get_focused_rankings]
  split
  · simp
  · split
    · simp
    · split
      · simp only [List.length_take]
        omega
      · simp only [List.length_take, List.length_drop]
        omega

theorem focused_body_eq (items : List CItem) (i : Nat) (tr : Int)
    (h : i < items.length) (hne : tr ≠ 0) :
    (if tr ≠ 0 ∧ tr ≤ 10 then items.take (min (i + 2) items.length)
     else (items.drop (i - min 2 i)).take (min 2 i + min 2 (items.length - i - 1) + 1)) =
      (if tr ≤ 10 then pySlice 0 (i + 2) items else pySlice (i - 2) (i + 3) items) := by
  by_cases h10 : tr ≤ 10
  · rw [if_pos ⟨hne, h10⟩, if_pos h10]
    exact take_min_eq_pySlice items i
  · rw [if_neg (fun hc => h10 hc.2), if_neg h10]
    exact window_eq_pySlice items i h

/-! ## Claim C1 -/

/-- Counterexample to C1 as stated: the target sits at index 10 with a
stored rank of 0; the claim reads the rank field (0, at most 10) and
predicts the path-to-victory slice of all eleven items, but the Python
expression rank or i+1 treats the zero rank as falsy, so the code uses
position 11, takes the local-window branch and returns three items. -/
theorem c1_counterexample :
    get_focused_rankings (some "t") c1_items 7 =
      [⟨"a8", none⟩, ⟨"a9", none⟩, ⟨"t", some 0⟩] ∧
    get_focused_rankings (some "t") c1_items 7 ≠ pySlice 0 (10 + 2) c1_items ∧
    c1_items[10]? = some ⟨"t", some 0⟩ ∧
    (c1_items.take 10).all (fun it => !hasSub (pyLower it.name) "t") = true := by
  decide

/-- The effective target rank is never the falsy zero: a zero rank falls
back to the positive position value. -/
theorem target_rank_of_ne_zero (i : Nat) (it : CItem) : target_rank_of i it ≠ 0 := by
  cases hr : it.rank with
  | none =>
      simp only [target_rank_of, hr]
      omega
  | some r =>
      simp only [target_rank_of, hr]
      by_cases hr0 : r = 0
      · simp only [hr0, if_pos]
        omega
      · simp only [hr0, if_neg, reduceIte]
        exact hr0

/-- Claim C1 amended: as stated, except that the positional fallback
target_index + 1 applies when the rank field is absent or zero (Python
treats a zero rank as falsy); with that reading the function returns the
first max_items on no match, the slice [0, target_index+2) clamped when
the effective rank is at most 10, and the clamped window
[target_index-2, target_index+3) otherwise, never exceeding the input
length. -/
theorem c1_focused_rankings_amended :
    ∀ (t : String) (items : List CItem) (max_items : Nat), t ≠ "" →
      (get_focused_rankings (some t) items max_items =
        match find_target (pyLower t) items with
        | none => items.take max_items
        | some (i, it) =>
            if target_rank_of i it ≤ 10 then pySlice 0 (i + 2) items
            else pySlice (i - 2) (i + 3) items) ∧
      (get_focused_rankings (some t) items max_items).length ≤ items.length := by
  intro t items max_items ht
  refine ⟨?_, get_focused_rankings_length _ _ _⟩
  rw [get_focused_rankings, if_neg (by simp [pyTruthyStr, ht])]
  simp only [Option.getD_some]
  cases hft : find_target (pyLower t) items with
  | none => rfl
  | some p =>
      obtain ⟨i, it⟩ := p
      have hget := find_target_get hft
      obtain ⟨hlen, -⟩ := List.getElem?_eq_some_iff.mp hget
      dsimp only
      exact focused_body_eq items i (target_rank_of i it) hlen
        (target_rank_of_ne_zero i it)

/-- Witness for the amended C1 at the counterexample input: the code
returns the clamped local window around index 10. -/
theorem c1_focused_rankings_witness :
    get_focused_rankings (some "t") c1_items 7 = pySlice 8 13 c1_items := by
  have h := (c1_focused_rankings_amended "t" c1_items 7 (by decide)).1
  rw [show find_target (pyLower "t") c1_items = some (10, ⟨"t", some 0⟩) from by decide] at h
  norm_num at h
  exact h

/-! ## Claim C9 -/

/-- Claim C9: whenever some item matches the configured target substring,
the first matching item is contained in the focused-rankings output, on
both the path-to-victory branch and the local-window branch. -/
theorem c9_target_in_focused_rankings :
    ∀ (t : String) (items : List CItem) (max_items i : Nat) (it : CItem),
      t ≠ "" → find_target (pyLower t) items = some (i, it) →
      it ∈ get_focused_rankings (some t) items max_items := by
  intro t items max_items i it ht hft
  have hget := find_target_get hft
  obtain ⟨hlen, -⟩ := List.getElem?_eq_some_iff.mp hget
  rw [get_focused_rankings, if_neg (by simp [pyTruthyStr, ht])]
  simp only [Option.getD_some]
  rw [hft]
  dsimp only
  split
  · refine List.getElem?_mem (n := i) ?_
    rw [List.getElem?_take, if_pos (by omega)]
    exact hget
  · refine List.getElem?_mem (n := min 2 i) ?_
    rw [List.getElem?_take, if_pos (by omega), List.getElem?_drop]
    rw [show i - min 2 i + min 2 i = i by omega]
    exact hget

/-- Witness for C9: the target at index 10 of the counterexample list is
inside its own focused view. -/
theorem c9_target_in_focused_rankings_witness :
    (⟨"t", some 0⟩ : CItem) ∈ get_focused_rankings (some "t") c1_items 7 :=
  c9_target_in_focused_rankings "t" c1_items 7 10 ⟨"t", some 0⟩ (by decide) (by decide)



/-! ## Claim C2 -/

theorem target_rank_in_eq (tname : String) (items : List CItem) :
    target_rank_in tname items = (first_match tname items).bind CItem.rank := by
  induction items with
  | nil => rfl
  | cons it rest ih =>
      rw [target_rank_in, first_match]
      cases h : hasSub (pyLower it.name) tname
      · simp only [List.find?_cons, h, Bool.false_eq_true, if_false]
        rw [ih, first_match]
      · simp only [List.find?_cons, h, if_true]
        rfl

theorem find_take_one (p : CChange → Bool) (l : List CChange) :
    (match l.find? p with
     | some c => [c]
     | none => []) = (l.filter p).take 1 := by
  induction l with
  | nil => rfl
  | cons c rest ih =>
      cases h : p c
      · rw [List.filter_cons_of_neg (by simp [h])]
        simp only [List.find?_cons, h]
        exact ih
      · rw [List.filter_cons_of_pos (by simp [h])]
        simp only [List.find?_cons, h]
        rfl

theorem threat_cond_eq_amended (tr : Int) (c : CChange) :
    threat_cond tr c = threat_amended tr c := by
  rcases c with ⟨⟨onm, orr⟩, ⟨nn, nr⟩, ch⟩
  cases nr with
  | none =>
      cases orr <;>
        simp [threat_cond, threat_amended, truthyRank]
  | some n =>
      cases orr with
      | none =>
          rw [Bool.eq_iff_iff]
          simp only [threat_cond, threat_amended, truthyRank, Option.isNone_none,
            Bool.true_or, Bool.and_true, Bool.and_eq_true, bne_iff_ne, ne_eq,
            decide_eq_true_eq]
          constructor
          · rintro ⟨⟨h1, h2⟩, h3⟩
            rw [if_neg (by push_neg; exact ⟨h1, h2, h3⟩)]
          · intro h
            by_cases hc : n = 0 ∨ tr = 0 ∨ ¬ n < tr
            · rw [if_pos hc] at h
              exact absurd h (by simp)
            · push_neg at hc
              exact ⟨⟨hc.1, hc.2.1⟩, hc.2.2⟩
      | some o =>
          rw [Bool.eq_iff_iff]
          simp only [threat_cond, threat_amended, truthyRank, Option.isNone_some,
            Bool.false_or, Bool.and_eq_true, Bool.or_eq_true, bne_iff_ne, ne_eq,
            decide_eq_true_eq]
          by_cases hc : n = 0 ∨ tr = 0 ∨ ¬ n < tr
          · rw [if_pos hc]
            simp only [Bool.false_eq_true, iff_false]
            rintro ⟨⟨h1, h2⟩, -⟩
            rcases hc with h | h | h
            · exact absurd h h1.1
            · exact absurd h h1.2
            · exact absurd h2 h
          · rw [if_neg hc]
            push_neg at hc
            simp only [decide_eq_true_eq, Bool.and_eq_true, Bool.or_eq_true,
              decide_eq_true_eq, ne_eq]
            constructor
            · rintro ⟨-, h | h⟩
              · exact Or.inl ⟨h.1, h.2⟩
              · exact Or.inr ⟨h.1.1, h.1.2, h.2⟩
            · rintro (h | h)
              · exact ⟨⟨⟨hc.1, hc.2.1⟩, hc.2.2⟩, Or.inl ⟨h.1, h.2⟩⟩
              · exact ⟨⟨⟨hc.1, hc.2.1⟩, hc.2.2⟩, Or.inr ⟨⟨h.1, h.2.1⟩, h.2.2⟩⟩

/-- Counterexample to C2 as stated: the target is located in current with
rank 5; the only change is a brand-new competitor (no old rank) whose new
rank is 0, numerically better than 5, so the claim includes it; but the
Python truthiness test new_rank and ... treats rank 0 as falsy and the
code returns the empty list. -/
theorem c2_counterexample :
    get_focused_changes (some "t") 5
        [⟨⟨"c", none⟩, ⟨"c", some 0⟩, []⟩] [⟨"t", some 5⟩] = [] ∧
    first_match (pyLower "t") [⟨"t", some 5⟩] = some ⟨"t", some 5⟩ ∧
    (⟨"c", some 0⟩ : CItem).rank = some 0 ∧ ((0 : Int) < 5) ∧
    (⟨"c", none⟩ : CItem).rank = none ∧
    hasSub (pyLower "c") (pyLower "t") = false := by
  decide

/-- Claim C2 amended: as stated, except that all rank tests follow Python
truthiness: the fallback to the first max_results unfiltered changes also
fires when the first matching current item has an absent rank; a
competitor is included only when its new rank is present, nonzero and
numerically lower than the nonzero target rank, and it either has no old
rank, or a nonzero old rank at or worse than the target rank, or a
nonzero old rank better than the target rank with a changed votes field;
the target own change, if any, comes first and the competitors keep the
input order. -/
theorem c2_focused_changes_amended :
    ∀ (t : String) (max_results : Nat) (changed : List CChange)
      (current : List CItem), t ≠ "" →
      get_focused_changes (some t) max_results changed current =
        match (first_match (pyLower t) current).map CItem.rank with
        | none => changed.take max_results
        | some none => changed.take max_results
        | some (some tr) =>
            (changed.filter fun c => hasSub (pyLower c.new_item.name) (pyLower t)).take 1 ++
              changed.filter fun c =>
                !hasSub (pyLower c.new_item.name) (pyLower t) && threat_amended tr c := by
  intro t max_results changed current ht
  rw [get_focused_changes, if_neg (by simp [pyTruthyStr, ht])]
  simp only [Option.getD_some]
  rw [target_rank_in_eq]
  cases hfm : first_match (pyLower t) current with
  | none => rfl
  | some it =>
      simp only [Option.some_bind, Option.map_some']
      cases hr : it.rank with
      | none => rfl
      | some tr =>
          dsimp only
          rw [find_take_one]
          congr 1
          apply List.filter_congr
          intro c _
          rw [threat_cond_eq_amended]

/-- Witness for the amended C2: with an empty current list the target is
not locatable and the fallback returns the unfiltered head. -/
theorem c2_focused_changes_witness :
    get_focused_changes (some "t") 5 ([] : List CChange) ([] : List CItem) = [] := by
  have h := c2_focused_changes_amended "t" 5 [] [] (by decide)
  simpa [first_match] using h

/-! ## Claim C5 -/

/-- Claim C5: the monitor dispatches a change alert only when the
formatted message contains the Key Change substring produced by the
changed-items block; in the concrete cycle current=[A,B,C],
previous=[A,B] the diff is new=[C] with nothing removed or changed, the
message has a New Item block and no Key Change block, and no alert is
sent. -/
theorem c5_notification_gating :
    (∀ (fmt : Item → String) (target : Option String) (max_results : Nat)
        (new_items removed_items : List Item) (changed_items : List ChTuple)
        (current_items : List Item),
        monitor_sends fmt target max_results new_items removed_items
          changed_items current_items = true →
        hasSub (format_changes_message fmt target max_results new_items
          removed_items changed_items current_items) "Key Change" = true) ∧
    (find_changes nameKey [exA, exB, exC] [exA, exB] = ([exC], [], []) ∧
      hasSub (format_changes_message exFmt none 5 [exC] [] [] [exA, exB, exC])
        "New Item" = true ∧
      hasSub (format_changes_message exFmt none 5 [exC] [] [] [exA, exB, exC])
        "Key Change" = false ∧
      monitor_sends exFmt none 5 [exC] [] [] [exA, exB, exC] = false) := by
  constructor
  · intro fmt target max_results new_items removed_items changed_items current_items h
    rw [monitor_sends] at h
    split at h
    · exact (Bool.and_eq_true_iff.mp h).2
    · simp at h
  · refine ⟨by decide, by decide, by decide, by decide⟩

/-- Witness for the gating implication of C5: a cycle with one changed
tuple and no target sends, and the message indeed contains Key Change. -/
theorem c5_notification_gating_witness :
    hasSub (format_changes_message exFmt none 5 [] []
      [⟨exA, exA, [("votes", "1", "2")]⟩] []) "Key Change" = true :=
  c5_notification_gating.1 exFmt none 5 [] [] [⟨exA, exA, [("votes", "1", "2")]⟩] []
    (by decide)

/-! ## Claim C3 -/

theorem keyMem_eq_mem (keyOf : Item → String) (items : List Item) (k : String) :
    keyMem keyOf items k = decide (k ∈ items.map keyOf) := by
  rw [Bool.eq_iff_iff]
  simp only [keyMem, List.any_eq_true, decide_eq_true_eq, List.mem_map]

theorem map_fst_buildDictAux (keyOf : Item → String) :
    ∀ (items : List Item) (d : List (String × Item)),
      (buildDictAux keyOf d items).map Prod.fst =
        d.map Prod.fst ++
          dedupFirst ((items.map keyOf).filter fun k => !decide (k ∈ d.map Prod.fst)) := by
  intro items
  induction items with
  | nil =>
      intro d
      rw [buildDictAux]
      simp only [List.map_nil, List.filter_nil, dedupFirst, List.append_nil]
  | cons it rest ih =>
      intro d
      rw [buildDictAux, ih]
      by_cases hm : keyOf it ∈ d.map Prod.fst
      · rw [map_fst_dictInsert, if_pos hm]
        simp only [List.map_cons, List.filter_cons]
        rw [show (!decide (keyOf it ∈ d.map Prod.fst)) = false by simp [hm]]
        simp
      · rw [map_fst_dictInsert, if_neg hm]
        simp only [List.map_cons, List.filter_cons]
        rw [show (!decide (keyOf it ∈ d.map Prod.fst)) = true by simp [hm]]
        simp only [if_true]
        rw [dedupFirst, List.filter_filter, List.append_assoc, List.singleton_append]
        have hfc : ((rest.map keyOf).filter fun k =>
              !decide (k ∈ d.map Prod.fst ++ [keyOf it])) =
            ((rest.map keyOf).filter fun a =>
              decide (a ≠ keyOf it) && !decide (a ∈ d.map Prod.fst)) := by
          apply List.filter_congr
          intro x _
          by_cases h1 : x ∈ d.map Prod.fst <;> by_cases h2 : x = keyOf it <;>
            simp [h1, h2]
        rw [hfc]

theorem map_fst_buildDict (keyOf : Item → String) (items : List Item) :
    (buildDict keyOf items).map Prod.fst = dedupFirst (items.map keyOf) := by
  rw [buildDict, map_fst_buildDictAux]
  rw [show ((items.map keyOf).filter fun k =>
      !decide (k ∈ ([] : List (String × Item)).map Prod.fst)) = items.map keyOf from by
    simp]
  simp

theorem dict_filterMap {α : Type} (G : String → Item → Option α) :
    ∀ (d : List (String × Item)), (d.map Prod.fst).Nodup →
      ((d.map Prod.fst).filterMap fun k => (listLookup d k).bind (G k)) =
        d.filterMap fun p => G p.1 p.2 := by
  intro d
  induction d with
  | nil => intro h; rfl
  | cons q rest ih =>
      intro hnd
      rw [List.map_cons, List.nodup_cons] at hnd
      rw [List.map_cons, List.filterMap_cons, List.filterMap_cons]
      have h1 : listLookup (q :: rest) q.1 = some q.2 := by
        rw [listLookup, if_pos rfl]
      have h2 : ((rest.map Prod.fst).filterMap fun k =>
            (listLookup (q :: rest) k).bind (G k)) =
          ((rest.map Prod.fst).filterMap fun k => (listLookup rest k).bind (G k)) := by
        apply List.filterMap_congr
        intro k hk
        have hne : q.1 ≠ k := fun he => hnd.1 (he ▸ hk)
        rw [listLookup, if_neg hne]
      rw [h1, h2, ih hnd.2]
      simp only [Option.some_bind]

theorem filterMap_if_some {α β : Type} (p : α → Bool) (g : α → β) (l : List α) :
    (l.filterMap fun a => if p a then some (g a) else none) = (l.filter p).map g := by
  induction l with
  | nil => rfl
  | cons a rest ih =>
      rw [List.filterMap_cons, List.filter_cons]
      cases h : p a <;> simp [h, ih]

theorem lookup_buildDict_isNone (keyOf : Item → String) (items : List Item)
    (k : String) :
    (listLookup (buildDict keyOf items) k).isNone = !keyMem keyOf items k := by
  rw [listLookup_buildDict, ← lastVal_isSome_eq_keyMem]
  cases lastVal keyOf k items <;> rfl

theorem find_changes_new_eq (keyOf : Item → String) (cur prev : List Item) :
    (find_changes keyOf cur prev).1 = spec_new keyOf cur prev := by
  have e1 : spec_new keyOf cur prev =
      ((buildDict keyOf cur).map Prod.fst).filterMap fun k =>
        (listLookup (buildDict keyOf cur) k).bind fun v =>
          if !keyMem keyOf prev k then some v else none := by
    rw [spec_new, ← map_fst_buildDict keyOf cur, List.filterMap_filter]
    apply List.filterMap_congr
    intro k _
    rw [listLookup_buildDict]
    cases lastVal keyOf k cur <;> cases hkm : keyMem keyOf prev k <;> simp [hkm]
  have e2 : (((buildDict keyOf cur).map Prod.fst).filterMap fun k =>
        (listLookup (buildDict keyOf cur) k).bind fun v =>
          if !keyMem keyOf prev k then some v else none) =
      (buildDict keyOf cur).filterMap fun p =>
        if !keyMem keyOf prev p.1 then some p.2 else none :=
    dict_filterMap _ _ (nodup_fst_buildDict keyOf cur)
  have e3 : ((buildDict keyOf cur).filterMap fun p =>
        if !keyMem keyOf prev p.1 then some p.2 else none) =
      ((buildDict keyOf cur).filter fun p => !keyMem keyOf prev p.1).map (·.2) :=
    filterMap_if_some _ _ _
  have e4 : (((buildDict keyOf cur).filter fun p => !keyMem keyOf prev p.1).map (·.2)) =
      ((buildDict keyOf cur).filter fun p =>
        (listLookup (buildDict keyOf prev) p.1).isNone).map (·.2) := by
    congr 1
    apply List.filter_congr
    intro p _
    rw [lookup_buildDict_isNone]
  exact (e1.trans (e2.trans (e3.trans e4))).symm

theorem find_changes_removed_eq (keyOf : Item → String) (cur prev : List Item) :
    (find_changes keyOf cur prev).2.1 = spec_removed keyOf cur prev := by
  have e1 : spec_removed keyOf cur prev =
      ((buildDict keyOf prev).map Prod.fst).filterMap fun k =>
        (listLookup (buildDict keyOf prev) k).bind fun v =>
          if !keyMem keyOf cur k then some v else none := by
    rw [spec_removed, ← map_fst_buildDict keyOf prev, List.filterMap_filter]
    apply List.filterMap_congr
    intro k _
    rw [listLookup_buildDict]
    cases lastVal keyOf k prev <;> cases hkm : keyMem keyOf cur k <;> simp [hkm]
  have e2 : (((buildDict keyOf prev).map Prod.fst).filterMap fun k =>
        (listLookup (buildDict keyOf prev) k).bind fun v =>
          if !keyMem keyOf cur k then some v else none) =
      (buildDict keyOf prev).filterMap fun p =>
        if !keyMem keyOf cur p.1 then some p.2 else none :=
    dict_filterMap _ _ (nodup_fst_buildDict keyOf prev)
  have e3 : ((buildDict keyOf prev).filterMap fun p =>
        if !keyMem keyOf cur p.1 then some p.2 else none) =
      ((buildDict keyOf prev).filter fun p => !keyMem keyOf cur p.1).map (·.2) :=
    filterMap_if_some _ _ _
  have e4 : (((buildDict keyOf prev).filter fun p => !keyMem keyOf cur p.1).map (·.2)) =
      ((buildDict keyOf prev).filter fun p =>
        (listLookup (buildDict keyOf cur) p.1).isNone).map (·.2) := by
    congr 1
    apply List.filter_congr
    intro p _
    rw [lookup_buildDict_isNone]
  exact (e1.trans (e2.trans (e3.trans e4))).symm

theorem find_changes_changed_eq (keyOf : Item → String) (cur prev : List Item) :
    (find_changes keyOf cur prev).2.2 = spec_changed keyOf cur prev := by
  have e1 : spec_changed keyOf cur prev =
      ((buildDict keyOf cur).map Prod.fst).filterMap fun k =>
        (listLookup (buildDict keyOf cur) k).bind fun a =>
          match listLookup (buildDict keyOf prev) k with
          | some b =>
              if get_item_changes b a = [] then none
              else some (ItemChange.mk b a (get_item_changes b a))
          | none => none := by
    rw [spec_changed, ← map_fst_buildDict keyOf cur, List.filterMap_filter]
    apply List.filterMap_congr
    intro k _
    rw [listLookup_buildDict, listLookup_buildDict]
    have hKM : keyMem keyOf prev k = (lastVal keyOf k prev).isSome :=
      (lastVal_isSome_eq_keyMem _ _ _).symm
    cases hc : lastVal keyOf k cur <;> cases hp : lastVal keyOf k prev <;>
      simp [hKM, hc, hp]
  have e2 : (((buildDict keyOf cur).map Prod.fst).filterMap fun k =>
        (listLookup (buildDict keyOf cur) k).bind fun a =>
          match listLookup (buildDict keyOf prev) k with
          | some b =>
              if get_item_changes b a = [] then none
              else some (ItemChange.mk b a (get_item_changes b a))
          | none => none) =
      (buildDict keyOf cur).filterMap fun p =>
        match listLookup (buildDict keyOf prev) p.1 with
        | some b =>
            if get_item_changes b p.2 = [] then none
            else some (ItemChange.mk b p.2 (get_item_changes b p.2))
        | none => none :=
    dict_filterMap _ _ (nodup_fst_buildDict keyOf cur)
  have e3 : ((buildDict keyOf cur).filterMap fun p =>
        match listLookup (buildDict keyOf prev) p.1 with
        | some b =>
            if get_item_changes b p.2 = [] then none
            else some (ItemChange.mk b p.2 (get_item_changes b p.2))
        | none => none) =
      find_changed_items (buildDict keyOf cur) (buildDict keyOf prev) := by
    rw [find_changed_items]
  exact (e1.trans (e2.trans e3)).symm

theorem lastVal_key (keyOf : Item → String) (k : String) :
    ∀ {items : List Item} {v : Item}, lastVal keyOf k items = some v → keyOf v = k := by
  intro items
  induction items with
  | nil => intro v h; simp [lastVal] at h
  | cons it rest ih =>
      intro v h
      rw [lastVal] at h
      split at h
      next w hlv =>
        cases h
        exact ih hlv
      next hlv =>
        split at h
        next hc =>
          cases h
          exact hc
        next hc => cases h

theorem mem_of_mem_dedupFirst : ∀ (l : List String) (k : String),
    k ∈ dedupFirst l → k ∈ l := by
  intro l
  induction l using dedupFirst.induct with
  | case1 => intro k h; simp [dedupFirst] at h
  | case2 a rest ih =>
      intro k h
      rw [dedupFirst] at h
      rcases List.mem_cons.mp h with h | h
      · exact h ▸ List.mem_cons_self _ _
      · exact List.mem_cons_of_mem _ (List.mem_filter.mp (ih k h)).1

theorem filterMap_map_keyOf (keyOf : Item → String) (F : String → Option Item) :
    ∀ ks : List String, (∀ k ∈ ks, ∃ v, F k = some v ∧ keyOf v = k) →
      (ks.filterMap F).map keyOf = ks := by
  intro ks
  induction ks with
  | nil => intro _; rfl
  | cons k rest ih =>
      intro h
      obtain ⟨v, hv, hkv⟩ := h k (List.mem_cons_self _ _)
      rw [List.filterMap_cons, hv]
      simp only [List.map_cons, hkv]
      rw [ih fun x hx => h x (List.mem_cons_of_mem _ hx)]

/-- Claim C3: find_changes computes exactly the claimed partition: new is
the current-only records in current iteration order with last write wins,
removed is the previous-only records, changed holds one ItemChange per
shared key with at least one differing non-ignored field; and for
disjoint key sets the outputs cover both sides exactly with no overlap. -/
theorem c3_find_changes_partition :
    ∀ (keyOf : Item → String) (cur prev : List Item),
      (find_changes keyOf cur prev).1 = spec_new keyOf cur prev ∧
      (find_changes keyOf cur prev).2.1 = spec_removed keyOf cur prev ∧
      (find_changes keyOf cur prev).2.2 = spec_changed keyOf cur prev ∧
      ((∀ it ∈ cur, keyMem keyOf prev (keyOf it) = false) →
        (find_changes keyOf cur prev).2.2 = [] ∧
        ((find_changes keyOf cur prev).1).map keyOf = dedupFirst (cur.map keyOf) ∧
        ((find_changes keyOf cur prev).2.1).map keyOf = dedupFirst (prev.map keyOf) ∧
        ∀ a ∈ (find_changes keyOf cur prev).1,
          ∀ b ∈ (find_changes keyOf cur prev).2.1, keyOf a ≠ keyOf b) := by
  intro keyOf cur prev
  refine ⟨find_changes_new_eq keyOf cur prev, find_changes_removed_eq keyOf cur prev,
    find_changes_changed_eq keyOf cur prev, ?_⟩
  intro hdisj
  have hkmem : ∀ k ∈ cur.map keyOf, keyMem keyOf prev k = false := by
    intro k hk
    obtain ⟨it, hit, rfl⟩ := List.mem_map.mp hk
    exact hdisj it hit
  have hkmemc : ∀ k ∈ cur.map keyOf, keyMem keyOf cur k = true := by
    intro k hk
    rw [keyMem_eq_mem]
    simp [hk]
  have hkmemp : ∀ k ∈ prev.map keyOf, keyMem keyOf prev k = true := by
    intro k hk
    rw [keyMem_eq_mem]
    simp [hk]
  have hkmemp2 : ∀ k ∈ prev.map keyOf, keyMem keyOf cur k = false := by
    intro k hk
    cases hc : keyMem keyOf cur k
    · rfl
    · exfalso
      rw [keyMem_eq_mem] at hc
      obtain ⟨it, hit, hkeq⟩ := List.mem_map.mp (of_decide_eq_true hc)
      have h1 : keyMem keyOf prev (keyOf it) = false := hdisj it hit
      have h2 : keyMem keyOf prev k = true := hkmemp k hk
      rw [hkeq] at h1
      rw [h1] at h2
      exact Bool.noConfusion h2
  have hnew : ((find_changes keyOf cur prev).1).map keyOf = dedupFirst (cur.map keyOf) := by
    rw [find_changes_new_eq, spec_new]
    rw [List.filter_eq_self.mpr fun k hk => by
      rw [hkmem k (mem_of_mem_dedupFirst _ _ hk)]
      rfl]
    apply filterMap_map_keyOf
    intro k hk
    have hk2 : k ∈ cur.map keyOf := mem_of_mem_dedupFirst _ _ hk
    have hs : (lastVal keyOf k cur).isSome = true := by
      rw [lastVal_isSome_eq_keyMem]
      exact hkmemc k hk2
    obtain ⟨v, hv⟩ := Option.isSome_iff_exists.mp hs
    exact ⟨v, hv, lastVal_key _ _ hv⟩
  have hrem : ((find_changes keyOf cur prev).2.1).map keyOf =
      dedupFirst (prev.map keyOf) := by
    rw [find_changes_removed_eq, spec_removed]
    rw [List.filter_eq_self.mpr fun k hk => by
      rw [hkmemp2 k (mem_of_mem_dedupFirst _ _ hk)]
      rfl]
    apply filterMap_map_keyOf
    intro k hk
    have hk2 : k ∈ prev.map keyOf := mem_of_mem_dedupFirst _ _ hk
    have hs : (lastVal keyOf k prev).isSome = true := by
      rw [lastVal_isSome_eq_keyMem]
      exact hkmemp k hk2
    obtain ⟨v, hv⟩ := Option.isSome_iff_exists.mp hs
    exact ⟨v, hv, lastVal_key _ _ hv⟩
  refine ⟨?_, hnew, hrem, ?_⟩
  · rw [find_changes_changed_eq, spec_changed]
    rw [List.filter_eq_nil_iff.mpr fun k hk => by
      rw [hkmem k (mem_of_mem_dedupFirst _ _ hk)]
      simp]
    rfl
  · intro a ha b hb heq
    have ha2 : keyOf a ∈ dedupFirst (cur.map keyOf) := hnew ▸ List.mem_map_of_mem keyOf ha
    have hb2 : keyOf b ∈ dedupFirst (prev.map keyOf) := hrem ▸ List.mem_map_of_mem keyOf hb
    have ha3 : keyOf a ∈ cur.map keyOf := mem_of_mem_dedupFirst _ _ ha2
    have hb3 : keyOf b ∈ prev.map keyOf := mem_of_mem_dedupFirst _ _ hb2
    have h1 : keyMem keyOf prev (keyOf a) = false := hkmem _ ha3
    have h2 : keyMem keyOf prev (keyOf b) = true := hkmemp _ hb3
    rw [heq, h2] at h1
    exact Bool.noConfusion h1

/-- Witness for C3 at disjoint concrete inputs. -/
theorem c3_find_changes_partition_witness :
    (find_changes nameKey [exA] [exB]).2.2 = [] ∧
    ((find_changes nameKey [exA] [exB]).1).map nameKey = dedupFirst ([exA].map nameKey) ∧
    ((find_changes nameKey [exA] [exB]).2.1).map nameKey =
      dedupFirst ([exB].map nameKey) := by
  have h := (c3_find_changes_partition nameKey [exA] [exB]).2.2.2 (by decide)
  exact ⟨h.1, h.2.1, h.2.2.1⟩
